import Mathlib

/-!
Shallow embedding of the multi-station kinematics pipeline of
WesternMeteorPyLib (files `wmpl/Trajectory/GuralTrajectory.py`,
`wmpl/Formats/Milig.py`, `wmpl/Utils/Pickling.py`), together with proofs
about it.

Machine floats are modelled by exact rationals; numpy float arrays become
lists of rationals.  Where numpy produces the non-finite values `inf`/`NaN`
(division of a float zero by a float zero, a singular covariance), the
embedded function returns `Option`/`Except` values, with `none`/`error`
standing for the non-finite or raised outcome; each such spot is noted at
the definition.
-/

namespace WMPL

/-! ### Shared helpers: vectors and the line model -/

/-- Model of `wmpl.Utils.Math.lineFunc`.  Modelled from the spec: the file
`wmpl/Utils/Math.py` is not under `src/`.  The spec gives the line model as
slope times time plus intercept (section 4.4, `Lag[i] = length[i] −
(v_begin · t[i] + intercept)`), and `GuralTrajectory.calcVelocity` reads the
slope out of the fitted parameter pair at index 0 and the intercept at
index 1, so `lineFunc x m k = m * x + k` with the slope first. -/
def lineFunc (x m k : ℚ) : ℚ := m * x + k

/-- ECI vectors, as triples of (exact) coordinates. -/
abbrev Vec3 := ℚ × ℚ × ℚ

/-- Componentwise vector subtraction (numpy array subtraction). -/
def vsub (a b : Vec3) : Vec3 := (a.1 - b.1, a.2.1 - b.2.1, a.2.2 - b.2.2)

/-- Componentwise vector addition (numpy array addition). -/
def vadd (a b : Vec3) : Vec3 := (a.1 + b.1, a.2.1 + b.2.1, a.2.2 + b.2.2)

/-- Scalar multiplication of a vector. -/
def smul (t : ℚ) (v : Vec3) : Vec3 := (t * v.1, t * v.2.1, t * v.2.2)

/-- Dot product of two vectors. -/
def dot (a b : Vec3) : ℚ := a.1 * b.1 + a.2.1 * b.2.1 + a.2.2 * b.2.2

/-- Taxicab magnitude on rational vectors.  This is not part of the source:
it is used only to instantiate, at concrete inputs, statements that are
proved for an arbitrary magnitude function (the source magnitude
`wmpl.Utils.Math.vectMag`, the Euclidean norm, is not under `src/`; its
exact value is irrelevant to those statements). -/
def taxiMag (v : Vec3) : ℚ := |v.1| + |v.2.1| + |v.2.2|

/-! ### Lag-intercept fit (`fitLagIntercept`, GuralTrajectory lines 331-361) -/

/-- Number of points used by `fitLagIntercept` for a station with `n`
points: `quart_size = int(0.25*len(time))` truncates to `n / 4`, and
`if quart_size < 4: quart_size = len(time)` replaces a quarter smaller
than 4 points by ALL of the points. -/
def quartSize (n : ℕ) : ℕ := if n / 4 < 4 then n else n / 4

/-- Residuals of the length data against the fixed-slope line with zero
intercept: the quantity whose mean is the least-squares intercept. -/
def residuals (time len : List ℚ) (v : ℚ) : List ℚ :=
  List.zipWith (fun t l => l - v * t) time len

/-- Model of `fitLagIntercept(time, length, v_init)`:`scipy.optimize.curve_fit`
is called on the one-parameter model `intercept ↦ lineFunc(x, v_init,
intercept)`, which is linear in its only parameter, so the fit it converges
to is the exact least-squares minimiser: the mean residual over the used
points.  The used points are the first `quartSize` entries, with the size
taken from `len(time)` as in the source. -/
def fitLagIntercept (time len : List ℚ) (v_init : ℚ) : ℚ × ℚ :=
  let k := quartSize time.length
  (v_init, (residuals (time.take k) (len.take k) v_init).sum / (k : ℚ))

/-- Sum of squared errors of the fixed-slope line with intercept `b` over
the given points: the objective that the intercept fit minimises. -/
def sse (time len : List ℚ) (v b : ℚ) : ℚ :=
  (List.zipWith (fun t l => (l - (v * t + b)) ^ 2) time len).sum

/-- Number of fit points according to the words of the claim for C1:
"the first ~25% of points, with a minimum of 4 points used for the fit"
(capped at the number of available points).  This definition follows the
spec sentence, not the source; it exists to be compared with `quartSize`. -/
def claimQuartSize (n : ℕ) : ℕ := min n (max (n / 4) 4)

/-- Intercept fit as the words of the claim for C1 describe it: least
squares over the first `claimQuartSize` points.  Definition written from
the spec sentence, for comparison with `fitLagIntercept`. -/
def fitLagInterceptClaimed (time len : List ℚ) (v_init : ℚ) : ℚ × ℚ :=
  let k := claimQuartSize time.length
  (v_init, (residuals (time.take k) (len.take k) v_init).sum / (k : ℚ))

/-! ### MILIG ingestion (`wmpl/Formats/Milig.py`) -/

/-- Station record as built by `StationData.__init__` (Milig.py lines
20-30); the per-pick lists are left out, they start empty. -/
structure StationData where
  station_id : String
  lon : ℚ
  lat : ℚ
  height : ℚ
deriving DecidableEq

/-- Constructor call model for `StationData(station_id, ..., ..., ...)`:
the `__init__` signature is `(self, station_id, lon, lat, height)`, so the
first positional data argument is bound to `lon` and the second to `lat`. -/
def StationData.make (station_id : String) (lon lat height : ℚ) : StationData :=
  { station_id := station_id, lon := lon, lat := lat, height := height }

/-- Degrees-to-radians conversion `np.radians`.  The factor `c` stands for
the real number `π / 180`; it is kept as a parameter because `π` is not
rational, and every statement below holds for an arbitrary positive `c`. -/
def radians (c d : ℚ) : ℚ := d * c

/-- Station-header parsing step of `loadMiligInput` (Milig.py lines
107-138) for one station line, applied to the already-extracted numeric
fields: the field in columns 3:13 (labelled "Station latitude in degrees"
in the source) is converted to radians into the local variable `lat`, the
field in columns 13:23 ("Station longitude in degrees") into `lon`, the
height in kilometers is converted to meters, and the station object is
built by the positional call `StationData(station_id, lat, lon, height)`
from line 130. -/
def loadMiligStation (c : ℚ) (station_id : String) (latDeg lonDeg heightKm : ℚ) :
    StationData :=
  StationData.make station_id (radians c latDeg) (radians c lonDeg) (heightKm * 1000)

/-! ### Measurement-convention dispatch (GuralTrajectory lines 820-861) -/

/-- Outcomes of the convention dispatch.  `unboundLocal` models the Python
`UnboundLocalError` raised when `azim_data`/`elev_data` are read without
having been assigned (the `if/elif` chain has no `else` branch).
`invalidConvention` is the dedicated error that the spec's error taxonomy
names `InvalidConvention`; it is listed here so that statements can
distinguish it from what the code actually does. -/
inductive ConvError where
  | unboundLocal : ConvError
  | invalidConvention : ConvError
deriving DecidableEq

/-- Python float modulo `x % y` for rationals: `x - y * ⌊x / y⌋` (result
has the sign of the divisor; used here with positive divisor only). -/
def qmod (x y : ℚ) : ℚ := x - y * ⌊x / y⌋

/-- Measurement-convention normalisation for one measurement pair, from
the `if self.meastype == ...` chain in `calcVelocity` (lines 824-849).
Angles are represented in units of π radians (half-turns), so that the
source's `(meas1 + np.pi) % (2*np.pi)` becomes `qmod (meas1 + 1) 2` and
`np.pi/2 - meas2` becomes `1/2 - meas2`; this change of unit is linear and
exact.  The RA/Dec branch (meastype 1) applies `raDec2AltAz`, which lives
in `wmpl/Utils/TrajConversions.py` (not under `src/`) and is therefore
taken as a parameter.  A meastype outside 1..4 falls through the chain
without assigning the azimuth/elevation variables, and the next read of
them raises `UnboundLocalError`. -/
def convertMeas (raDecToAltAz : ℚ → ℚ → ℚ × ℚ) (meastype : ℤ) (meas1 meas2 : ℚ) :
    Except ConvError (ℚ × ℚ) :=
  if meastype = 1 then .ok (raDecToAltAz meas1 meas2)
  else if meastype = 2 then .ok (meas1, meas2)
  else if meastype = 3 then .ok (qmod (meas1 + 1) 2, 1 / 2 - meas2)
  else if meastype = 4 then .ok (qmod (1 / 2 - meas1) 2, 1 / 2 - meas2)
  else .error .unboundLocal

/-! ### Per-station kinematics (GuralTrajectory lines 900-951, 1060-1066) -/

/-- Machine epsilon of `np.float64`, the value `np.finfo(np.float64).eps`
substituted for zero time differences. -/
def eps : ℚ := 1 / 2 ^ 52

/-- Along-track lengths of a station's CPA points (lines 909-917): the
first point is copied as the reference point, and every length is the
magnitude of the difference between the reference point and the point.
The magnitude function is a parameter: the source's `vectMag`
(`wmpl/Utils/Math.py`, the Euclidean norm) is not under `src/`, and the
statements below hold for an arbitrary magnitude. -/
def calcLengths (mag : Vec3 → ℚ) : List Vec3 → List ℚ
  | [] => []
  | c0 :: rest => mag (vsub c0 c0) :: rest.map (fun c => mag (vsub c0 c))

/-- Point-to-point time differences with the `t[-1] := 0` convention:
`time_shifted = np.r_[0, time_data][:-1]`, `time_diffs = time_data -
time_shifted` (lines 940-943). -/
def timeDiffs (time : List ℚ) : List ℚ :=
  List.zipWith (fun a b => a - b) time (0 :: time)

/-- Time differences after the guard `time_diffs[time_diffs == 0] =
np.finfo(np.float64).eps` (line 946): zero entries are replaced in place by
machine epsilon, no entry is dropped. -/
def timeDiffsEps (time : List ℚ) : List ℚ :=
  (timeDiffs time).map (fun d => if d = 0 then eps else d)

/-- Point-to-point length differences with the `length[-1] := 0`
convention (lines 934-937). -/
def distDiffs (len : List ℚ) : List ℚ :=
  List.zipWith (fun a b => a - b) len (0 :: len)

/-- Instantaneous velocity per point: `velocity = dists_diffs/time_diffs`
(line 949), with the guarded time differences. -/
def instVelocities (time len : List ℚ) : List ℚ :=
  List.zipWith (fun a b => a / b) (distDiffs len) (timeDiffsEps time)

/-- Average station velocity from `calcAverages` (line 1066):
`(length[-1] - length[0])/(time_data[-1] - time_data[0])`.  The source has
no usable-point check: for a single-point station the numpy float division
is `0.0/0.0`, which yields `NaN` (and a zero time span with a nonzero
length span yields `inf`); these non-finite float results are modelled by
`none`.  An empty station would raise `IndexError`, also `none`. -/
def stationAvgVel (time len : List ℚ) : Option ℚ :=
  if time = [] ∨ len = [] then none
  else
    let span := time.getLastD 0 - time.headD 0
    if span = 0 then none else some ((len.getLastD 0 - len.headD 0) / span)

/-! ### First-half-average begin velocity (GuralTrajectory lines 954-1009) -/

/-- Python `list.pop(j)` result: the list with the element at index `j`
removed. -/
def popAt (l : List α) (j : ℕ) : List α := l.take j ++ l.drop (j + 1)

/-- The station indices used by candidate `i` of the first-half-average
loop: `use_indices = list(range(maxcameras))`, and when `maxcameras > 2`
(the loop variable `i` ranges over `1..maxcameras`, so `i != 0` always
holds) the station at position `i - 1` is popped. -/
def useIndices (n i : ℕ) : List ℕ :=
  if 2 < n then popAt (List.range n) (i - 1) else List.range n

/-- Pooled (time, state-vector-distance) pairs of the stations selected by
`use`: the per-station arrays are filtered by index membership
(`if i in use_indices`), flattened in order, and the two flat lists are
paired columnwise (`np.c_[times, sv_dists]`, lines 975-983). -/
def pooledPairs (times svs : List (List ℚ)) (use : List ℕ) : List (ℚ × ℚ) :=
  let ft := ((times.enum.filter (fun p => decide (p.1 ∈ use))).map Prod.snd).flatten
  let fs := ((svs.enum.filter (fun p => decide (p.1 ∈ use))).map Prod.snd).flatten
  ft.zip fs

/-- Sort the pooled pairs by time (`np.argsort` on the time column, line
984); ties keep a fixed order, which the fit does not depend on. -/
def sortByTime (l : List (ℚ × ℚ)) : List (ℚ × ℚ) :=
  l.mergeSort (fun a b => decide (a.1 ≤ b.1))

/-- Ordinary least-squares line fit, the exact solution that
`scipy.optimize.curve_fit(lineFunc, x, y)` converges to for the linear
model `lineFunc`; returns `(slope, intercept)`.  A singular normal system
(fewer than two distinct abscissae) gives non-finite float output,
modelled by `none`. -/
def lsqLine (pts : List (ℚ × ℚ)) : Option (ℚ × ℚ) :=
  let n : ℚ := pts.length
  let sx := (pts.map Prod.fst).sum
  let sy := (pts.map Prod.snd).sum
  let sxx := (pts.map (fun p => p.1 ^ 2)).sum
  let sxy := (pts.map (fun p => p.1 * p.2)).sum
  let det := n * sxx - sx ^ 2
  if det = 0 then none
  else some ((n * sxy - sx * sy) / det, (sxx * sy - sx * sxy) / det)

/-- Variance of the intercept parameter of the least-squares line fit:
entry [1][1] of the covariance matrix returned by `curve_fit`, which for
the linear model is `SSE/(n-2)` times entry [1][1] of the inverse normal
matrix, `sxx/det`.  With `n ≤ 2` points or a singular system the
covariance is non-finite (`inf`), modelled by `none`.  The source compares
standard deviations (`np.sqrt(np.diag(pcov))[1]`); the square root is
strictly monotone on the nonnegative variances, so comparisons of
variances and of standard deviations agree. -/
def interceptVar (pts : List (ℚ × ℚ)) : Option ℚ :=
  match lsqLine pts with
  | none => none
  | some (m, k) =>
    if pts.length ≤ 2 then none
    else
      let n : ℚ := pts.length
      let sx := (pts.map Prod.fst).sum
      let sxx := (pts.map (fun p => p.1 ^ 2)).sum
      let det := n * sxx - sx ^ 2
      let sseFit := (pts.map (fun p => (p.2 - (m * p.1 + k)) ^ 2)).sum
      some (sseFit / (n - 2) * (sxx / det))

/-- One candidate of the first-half-average loop: pool the pairs of the
selected stations, sort by time, keep the earliest half
(`half_index = int(len(times)/2)`), fit a line to it, and compute the
intercept-parameter variance of the fit. -/
def candidateFit (times svs : List (List ℚ)) (use : List ℕ) :
    Option (ℚ × ℚ) × Option ℚ :=
  let pts := sortByTime (pooledPairs times svs use)
  let half := pts.take (pts.length / 2)
  (lsqLine half, interceptVar half)

/-- Comparison `intercept_stddev < best_stddev` on the extended
nonnegative variances, where `none` stands for the non-finite value
(`best_stddev` starts as `np.inf`, and a non-finite candidate compares
as not-less in float arithmetic). -/
def ltVar : Option ℚ → Option ℚ → Bool
  | some a, some b => decide (a < b)
  | some _, none => true
  | none, _ => false

/-- Candidate indices visited by the loop `for i in range(1, maxcameras +
1)`: all of `1..n`, except that `if self.maxcameras == 2: break` ends the
loop after its first iteration, so exactly `[1]` when `n = 2`. -/
def fhaIndices (n : ℕ) : List ℕ := if n = 2 then [1] else List.range' 1 n

/-- The accumulator loop keeping the best candidate so far: start from
`best_stddev = np.inf`, `best_solution = None`, and replace on strict
improvement. -/
def bestLoop (cands : List ι) (c : ι → Option (ℚ × ℚ) × Option ℚ) :
    Option (ℚ × ℚ) × Option ℚ :=
  cands.foldl (fun best i => if ltVar (c i).2 best.2 then c i else best)
    (none, none)

/-- The first-half-average selection (lines 962-1009): run the candidate
loop and keep the fit with the lowest intercept-parameter variance. -/
def fhaSelect (times svs : List (List ℚ)) (n : ℕ) : Option (ℚ × ℚ) × Option ℚ :=
  bestLoop (fhaIndices n) (fun i => candidateFit times svs (useIndices n i))

/-- The begin velocity read off the selected solution:
`self.vbegin = best_solution[0]/1000` (line 1009). -/
def fhaVBegin (times svs : List (List ℚ)) (n : ℕ) : Option ℚ :=
  (fhaSelect times svs n).1.map (fun p => p.1 / 1000)

/-! ### Closest point of approach (spec section 4.3) -/

/-- Error raised by the projection on degenerate geometry, from the spec's
error taxonomy. -/
inductive GeomError where
  | degenerateGeometry : GeomError
deriving DecidableEq

/-- Modelled from the spec: `findClosestPoints` lives in
`wmpl/Utils/Math.py`, which is not under `src/`.  Spec section 4.3: given
a line of sight (station point `S`, unit direction `shat`) and the
trajectory line (state-vector point `P`, unit radiant direction `dhat`),
compute the classic two-line closest points; the denominator of the
solution is `1 - (shat·dhat)^2` for unit directions, and the system
"must guard against near-singular denominators (a configurable epsilon)
rather than producing NaN/Inf — fails with DegenerateGeometry if direction
vectors are parallel within tolerance".  Returns the pair (point on the
observed ray, point on the radiant line). -/
def findClosestPoints (S shat P dhat : Vec3) (epsTol : ℚ) :
    Except GeomError (Vec3 × Vec3) :=
  let b := dot shat dhat
  let denom := 1 - b ^ 2
  if denom ≤ epsTol then .error .degenerateGeometry
  else
    let w := vsub S P
    let d := dot shat w
    let e := dot dhat w
    let sc := (b * e - d) / denom
    let tc := (e - b * d) / denom
    .ok (vadd S (smul sc shat), vadd P (smul tc dhat))

/-! ### Pickling frame effect (GuralTrajectory lines 1634-1660) -/

/-- A Python object reference together with its truthiness (the result of
`bool(obj)`); `oid` models object identity, so that "bound to the same
object" is equality of records. -/
structure PyObj where
  oid : ℕ
  truthy : Bool
deriving DecidableEq

/-- State of a `GuralTrajectory` instance as `savePickle` sees it: the
`traj_lib` and `traj` attributes may be absent (`none` models a deleted
attribute, as after `run()`); every other attribute is collected in
`rest`, which `savePickle` never touches. -/
structure TrajState (α : Type) where
  traj_lib : Option PyObj
  traj : Option PyObj
  rest : α
deriving DecidableEq

/-- The `savePickle` method (lines 1634-1660): back up and delete
`traj_lib` and `traj` (an absent attribute raises `AttributeError`, caught,
and leaves the backup as `None`), pickle the object
(`wmpl.Utils.Pickling.savePickle` only writes the file, it does not touch
the object), then restore each attribute under the truthiness tests
`if backup_traj_lib:` and `if backup_traj:` — so a backed-up value that is
falsy (for example `None` or `0`) is NOT restored, and the attribute stays
deleted. -/
def savePickleMethod (s : TrajState α) : TrajState α :=
  let backup_lib := s.traj_lib
  let s1 : TrajState α := { s with traj_lib := none }
  let backup_traj := s1.traj
  let s2 : TrajState α := { s1 with traj := none }
  let s3 : TrajState α :=
    match backup_lib with
    | some v => if v.truthy then { s2 with traj_lib := some v } else s2
    | none => s2
  match backup_traj with
  | some v => if v.truthy then { s3 with traj := some v } else s3
  | none => s3

/-! ## Theorems -/

/-- Claim C2.  The station-latitude invariant fails at ingestion: because
`StationData.__init__` declares its parameters in the order `(station_id,
lon, lat, height)` while `loadMiligInput` line 130 passes
`(station_id, lat, lon, height)` positionally, the `lat` attribute of the
returned station receives the LONGITUDE field converted to radians.  For
the MILIG station line with latitude field 45.0 and longitude field 170.0
(and any positive value `c` of the conversion factor π/180), the `lat`
attribute equals `170 * c`, differs from the latitude field in radians
`45 * c`, and exceeds `90 * c` — the embedded value of π/2 — so it lies
outside [−π/2, π/2]. -/
theorem loadMiligStation_lat_gets_longitude (c : ℚ) (h : 0 < c) :
    (loadMiligStation c "1" 45 170 (329 / 1000)).lat = 170 * c ∧
    (loadMiligStation c "1" 45 170 (329 / 1000)).lat ≠ 45 * c ∧
    ¬ (loadMiligStation c "1" 45 170 (329 / 1000)).lat ≤ 90 * c := by
  refine ⟨?_, ?_, ?_⟩
  · simp [loadMiligStation, StationData.make, radians]
  · simp only [loadMiligStation, StationData.make, radians]
    intro hc
    nlinarith
  · simp only [loadMiligStation, StationData.make, radians]
    nlinarith

/-- Witness for `loadMiligStation_lat_gets_longitude` at the concrete
conversion factor 1. -/
theorem loadMiligStation_lat_gets_longitude_witness :
    (0:ℚ) < 1 ∧
    ((loadMiligStation 1 "1" 45 170 (329 / 1000)).lat = 170 * 1 ∧
     (loadMiligStation 1 "1" 45 170 (329 / 1000)).lat ≠ 45 * 1 ∧
     ¬ (loadMiligStation 1 "1" 45 170 (329 / 1000)).lat ≤ 90 * 1) :=
  ⟨by norm_num, loadMiligStation_lat_gets_longitude 1 (by norm_num)⟩

/-- Counterexample for claim C3.  An unrecognized measurement-convention
code does NOT fail with the dedicated `InvalidConvention` error: the
`if/elif` chain of `calcVelocity` has no `else` branch, so code 5 falls
through and the conversion fails with an unbound-local error instead. -/
theorem convertMeas_no_invalidConvention :
    convertMeas (fun a b => (a, b)) 5 0 0 ≠
      Except.error ConvError.invalidConvention := by
  simp [convertMeas]

/-- Amended claim C3.  For every measurement-convention code other than
1, 2, 3, 4, converting the measurements fails — nothing is silently
treated as a default convention — but the failure is the generic
unbound-local crash from reading the never-assigned azimuth/elevation
variables, not a dedicated `InvalidConvention` error. -/
theorem convertMeas_unknown_fails (f : ℚ → ℚ → ℚ × ℚ) (mt : ℤ) (m1 m2 : ℚ)
    (h1 : mt ≠ 1) (h2 : mt ≠ 2) (h3 : mt ≠ 3) (h4 : mt ≠ 4) :
    convertMeas f mt m1 m2 = Except.error ConvError.unboundLocal := by
  simp [convertMeas, h1, h2, h3, h4]

/-- Witness for `convertMeas_unknown_fails` at code 5. -/
theorem convertMeas_unknown_fails_witness :
    (5:ℤ) ≠ 1 ∧ (5:ℤ) ≠ 2 ∧ (5:ℤ) ≠ 3 ∧ (5:ℤ) ≠ 4 ∧
    convertMeas (fun a b => (a, b)) 5 0 0 =
      Except.error ConvError.unboundLocal :=
  ⟨by decide, by decide, by decide, by decide,
   convertMeas_unknown_fails (fun a b => (a, b)) 5 0 0
     (by decide) (by decide) (by decide) (by decide)⟩

/-- Claim C7.  Under meastype 3 (azimuth west of south, zenith angle)
every pair is normalised to azimuth-east-of-north `(meas1 + π) mod 2π`
and elevation `π/2 − meas2` (angles here in units of π); the azimuth
always lands in the normalised range [0, 2π); and the concrete input
(meas1 = 0, meas2 = π/2) maps to azimuth π and elevation 0. -/
theorem meastype3_azimuth_elevation (f : ℚ → ℚ → ℚ × ℚ) (m1 m2 : ℚ) :
    convertMeas f 3 m1 m2 = Except.ok (qmod (m1 + 1) 2, 1 / 2 - m2) ∧
    0 ≤ qmod (m1 + 1) 2 ∧ qmod (m1 + 1) 2 < 2 ∧
    convertMeas f 3 0 (1 / 2) = Except.ok (1, 0) := by
  have hfl : ((⌊(m1 + 1) / 2⌋ : ℚ)) ≤ (m1 + 1) / 2 := Int.floor_le _
  have hfu : (m1 + 1) / 2 < (⌊(m1 + 1) / 2⌋ : ℚ) + 1 := Int.lt_floor_add_one _
  refine ⟨by simp [convertMeas], ?_, ?_, ?_⟩
  · simp only [qmod]
    linarith
  · simp only [qmod]
    linarith
  · have hfloor : ⌊((0:ℚ) + 1) / 2⌋ = 0 := by
      rw [Int.floor_eq_zero_iff]
      constructor <;> norm_num
    simp [convertMeas, qmod, hfloor]
    norm_num

/-- Counterexample for claim C4.  A station with a single usable point
does not get "unavailable" kinematics: the code has no minimum-point
check, and for the one-point station (time 5 s, one CPA point) it
fabricates the numeric instantaneous-velocity array [0], while the
average velocity of `calcAverages` divides a zero length span by a zero
time span, the numpy `0.0/0.0` giving `NaN` (modelled `none`). -/
theorem singlePoint_fabricated_values :
    instVelocities [5] (calcLengths taxiMag [((1:ℚ), 2, 3)]) = [0] ∧
    stationAvgVel [5] (calcLengths taxiMag [((1:ℚ), 2, 3)]) = none := by
  norm_num [instVelocities, calcLengths, taxiMag, vsub, distDiffs, timeDiffs,
    timeDiffsEps, stationAvgVel, eps]

/-- Amended claim C4.  The kinematics stage performs no usable-point
check: for every single-point station it produces the numeric
instantaneous-velocity array [0] (a fabricated value, not an
"unavailable" marker), and its average velocity is the non-finite float
`0/0` (`NaN`, modelled `none`), for any magnitude function sending the
zero vector to 0. -/
theorem singlePoint_fabricates (mag : Vec3 → ℚ) (p : Vec3) (t : ℚ)
    (h0 : mag (0, 0, 0) = 0) :
    instVelocities [t] (calcLengths mag [p]) = [0] ∧
    stationAvgVel [t] (calcLengths mag [p]) = none := by
  have hz : vsub p p = (0, 0, 0) := by
    simp [vsub]
  have hlen : calcLengths mag [p] = [0] := by
    simp only [calcLengths, hz, h0, List.map_nil]
  rw [hlen]
  constructor
  · simp [instVelocities, distDiffs, timeDiffs, timeDiffsEps]
  · simp [stationAvgVel]

/-- Witness for `singlePoint_fabricates` at the taxicab magnitude and a
concrete point. -/
theorem singlePoint_fabricates_witness :
    taxiMag (0, 0, 0) = 0 ∧
    (instVelocities [7] (calcLengths taxiMag [((4:ℚ), 5, 6)]) = [0] ∧
     stationAvgVel [7] (calcLengths taxiMag [((4:ℚ), 5, 6)]) = none) :=
  ⟨by norm_num [taxiMag],
   singlePoint_fabricates taxiMag ((4:ℚ), 5, 6) 7 (by norm_num [taxiMag])⟩

/-- Claim C5.  For every station input, with repeated timestamps or a
first sample at t = 0, the instantaneous-velocity computation divides by
no zero: every denominator in the guarded time-difference array is
nonzero, every zero time delta (including a zero first timestamp, since
the convention sets t[−1] := 0) is replaced by exactly machine epsilon,
and the velocity array has exactly one entry per measurement. -/
theorem instVelocities_guard (time len : List ℚ) (h : time.length = len.length) :
    (instVelocities time len).length = time.length ∧
    (∀ d ∈ timeDiffsEps time, d ≠ 0) ∧
    (∀ i, i < time.length → (timeDiffs time).getD i 0 = 0 →
      (timeDiffsEps time).getD i 0 = eps) := by
  have htd : (timeDiffs time).length = time.length := by
    simp [timeDiffs]
  have htde : (timeDiffsEps time).length = time.length := by
    simp [timeDiffsEps, htd]
  refine ⟨?_, ?_, ?_⟩
  · simp [instVelocities, distDiffs, timeDiffsEps, timeDiffs, h]
  · intro d hd
    simp only [timeDiffsEps, List.mem_map] at hd
    obtain ⟨d0, _, rfl⟩ := hd
    by_cases hz : d0 = 0
    · simp [hz, eps]
    · simp [hz]
  · intro i hi hzero
    have hi' : i < (timeDiffs time).length := by rw [htd]; exact hi
    have hi'' : i < (timeDiffsEps time).length := by rw [htde]; exact hi
    rw [List.getD_eq_getElem _ _ hi'] at hzero
    rw [List.getD_eq_getElem _ _ hi'']
    simp [timeDiffsEps, hzero]

/-- Witness for `instVelocities_guard` on a station whose first sample is
at t = 0 and whose second timestamp repeats. -/
theorem instVelocities_guard_witness :
    ([(0:ℚ), 1, 1].length = [(0:ℚ), 2, 5].length) ∧
    ((instVelocities [(0:ℚ), 1, 1] [(0:ℚ), 2, 5]).length = [(0:ℚ), 1, 1].length ∧
     (∀ d ∈ timeDiffsEps [(0:ℚ), 1, 1], d ≠ 0) ∧
     (∀ i, i < [(0:ℚ), 1, 1].length → (timeDiffs [(0:ℚ), 1, 1]).getD i 0 = 0 →
       (timeDiffsEps [(0:ℚ), 1, 1]).getD i 0 = eps)) :=
  ⟨by simp, instVelocities_guard [(0:ℚ), 1, 1] [(0:ℚ), 2, 5] (by simp)⟩

/-- Claim C8.  For every station with at least one CPA point and any
magnitude function with magnitude zero at the zero vector (the source
magnitude is the Euclidean norm of `wmpl/Utils/Math.py`, not under
`src/`): the length sequence has one entry per CPA point, entry `i` is
the magnitude of the difference between the station's own first CPA
point and point `i`, and entry 0 is 0.  The final conjunct exhibits, at
the taxicab magnitude, a length sequence `[0, 2, 1]` that decreases from
2 to 1: length is not monotonically non-decreasing. -/
theorem calcLengths_cpa (mag : Vec3 → ℚ) (cpas : List Vec3) (hne : cpas ≠ [])
    (h0 : mag (0, 0, 0) = 0) :
    (calcLengths mag cpas).length = cpas.length ∧
    (∀ i, i < cpas.length →
      (calcLengths mag cpas).getD i 0 =
        mag (vsub (cpas.getD 0 (0, 0, 0)) (cpas.getD i (0, 0, 0)))) ∧
    (calcLengths mag cpas).getD 0 0 = 0 ∧
    calcLengths taxiMag [((0:ℚ), 0, 0), (2, 0, 0), (1, 0, 0)] = [0, 2, 1] := by
  obtain ⟨c0, rest, rfl⟩ : ∃ c0 rest, cpas = c0 :: rest := by
    cases cpas with
    | nil => exact absurd rfl hne
    | cons a l => exact ⟨a, l, rfl⟩
  have hz : vsub c0 c0 = (0, 0, 0) := by
    simp [vsub]
  refine ⟨by simp [calcLengths], ?_, ?_, ?_⟩
  · intro i hi
    cases i with
    | zero => simp [calcLengths, hz]
    | succ j =>
      have hj : j < rest.length := by simpa using hi
      have hj' : j < (rest.map (fun c => mag (vsub c0 c))).length := by simpa using hj
      simp only [calcLengths, List.getD_cons_succ, List.getD_cons_zero]
      rw [List.getD_eq_getElem _ _ hj', List.getD_eq_getElem _ _ hj]
      simp
  · simp only [calcLengths, List.getD_cons_zero, hz, h0]
  · norm_num [calcLengths, taxiMag, vsub]

/-- Witness for `calcLengths_cpa` at the taxicab magnitude and a concrete
three-point station. -/
theorem calcLengths_cpa_witness :
    ([((0:ℚ), 0, 0), (2, 0, 0), (1, 0, 0)] ≠ ([] : List Vec3)) ∧
    taxiMag (0, 0, 0) = 0 ∧
    ((calcLengths taxiMag [((0:ℚ), 0, 0), (2, 0, 0), (1, 0, 0)]).length =
        [((0:ℚ), 0, 0), (2, 0, 0), (1, 0, 0)].length ∧
     (∀ i, i < [((0:ℚ), 0, 0), (2, 0, 0), (1, 0, 0)].length →
       (calcLengths taxiMag [((0:ℚ), 0, 0), (2, 0, 0), (1, 0, 0)]).getD i 0 =
         taxiMag (vsub ([((0:ℚ), 0, 0), (2, 0, 0), (1, 0, 0)].getD 0 (0, 0, 0))
           ([((0:ℚ), 0, 0), (2, 0, 0), (1, 0, 0)].getD i (0, 0, 0)))) ∧
     (calcLengths taxiMag [((0:ℚ), 0, 0), (2, 0, 0), (1, 0, 0)]).getD 0 0 = 0 ∧
     calcLengths taxiMag [((0:ℚ), 0, 0), (2, 0, 0), (1, 0, 0)] = [0, 2, 1]) :=
  ⟨by simp, by norm_num [taxiMag],
   calcLengths_cpa taxiMag [((0:ℚ), 0, 0), (2, 0, 0), (1, 0, 0)] (by simp)
     (by norm_num [taxiMag])⟩

/-- Claim C9 (spec-modelled: `findClosestPoints` lives in
`wmpl/Utils/Math.py`, which is not under `src/`, so it is modelled from
spec section 4.3).  For every line of sight whose direction is parallel
to the radiant direction within the tolerance — the squared dot product
within `epsTol` of 1, i.e. the denominator `1 − (ŝ·d̂)²` at most
`epsTol` — the projection fails with `DegenerateGeometry` and returns no
coordinate at all. -/
theorem findClosestPoints_parallel_degenerate (S shat P dhat : Vec3) (epsTol : ℚ)
    (hpar : 1 - dot shat dhat ^ 2 ≤ epsTol) :
    findClosestPoints S shat P dhat epsTol =
      Except.error GeomError.degenerateGeometry ∧
    ∀ q r, findClosestPoints S shat P dhat epsTol ≠ Except.ok (q, r) := by
  refine ⟨by simp [findClosestPoints, hpar], ?_⟩
  intro q r
  simp [findClosestPoints, hpar]

/-- Witness for `findClosestPoints_parallel_degenerate`: a line of sight
exactly parallel to the radiant (dot product 1). -/
theorem findClosestPoints_parallel_degenerate_witness :
    ((1:ℚ) - dot ((1:ℚ), 0, 0) ((1:ℚ), 0, 0) ^ 2 ≤ 1 / 1000) ∧
    (findClosestPoints ((0:ℚ), 0, 0) ((1:ℚ), 0, 0) ((0:ℚ), 1, 0) ((1:ℚ), 0, 0)
        (1 / 1000) = Except.error GeomError.degenerateGeometry ∧
     ∀ q r, findClosestPoints ((0:ℚ), 0, 0) ((1:ℚ), 0, 0) ((0:ℚ), 1, 0)
        ((1:ℚ), 0, 0) (1 / 1000) ≠ Except.ok (q, r)) :=
  ⟨by norm_num [dot],
   findClosestPoints_parallel_degenerate ((0:ℚ), 0, 0) ((1:ℚ), 0, 0)
     ((0:ℚ), 1, 0) ((1:ℚ), 0, 0) (1 / 1000) (by norm_num [dot])⟩

/-- Counterexample for claim C10.  The restore step of `savePickle` tests
the backed-up values for truthiness (`if backup_traj_lib:`), not for
presence: on an instance whose `traj_lib` attribute is present but bound
to a falsy object (for example `None`), the method deletes the attribute
and never restores it, so the object's state is changed by the call. -/
theorem savePickle_deletes_falsy :
    savePickleMethod
        { traj_lib := some { oid := 7, truthy := false }, traj := none,
          rest := (0:ℕ) } ≠
      { traj_lib := some { oid := 7, truthy := false }, traj := none,
        rest := (0:ℕ) } := by
  decide

/-- Amended claim C10.  The method never touches any attribute other than
`traj_lib` and `traj`; and whenever each of `traj_lib` and `traj` is
either absent or bound to a truthy object (the only states the program
itself reaches: a loaded library and a ctypes structure are truthy, and
`run()` deletes both), the call leaves the whole state unchanged, each
attribute present exactly when it was and bound to the same object.  A
present-but-falsy attribute is the one exception: it is deleted. -/
theorem savePickle_frame {α : Type} (s : TrajState α) :
    (savePickleMethod s).rest = s.rest ∧
    ((∀ v, s.traj_lib = some v → v.truthy = true) →
     (∀ v, s.traj = some v → v.truthy = true) →
     savePickleMethod s = s) := by
  obtain ⟨lib, tr, rest⟩ := s
  rcases lib with _ | v <;> rcases tr with _ | w
  · exact ⟨rfl, fun _ _ => rfl⟩
  · refine ⟨?_, ?_⟩
    · by_cases hw : w.truthy <;> simp [savePickleMethod, hw]
    · intro _ h2
      have hw : w.truthy = true := h2 w rfl
      simp [savePickleMethod, hw]
  · refine ⟨?_, ?_⟩
    · by_cases hv : v.truthy <;> simp [savePickleMethod, hv]
    · intro h1 _
      have hv : v.truthy = true := h1 v rfl
      simp [savePickleMethod, hv]
  · refine ⟨?_, ?_⟩
    · by_cases hv : v.truthy <;> by_cases hw : w.truthy <;>
        simp [savePickleMethod, hv, hw]
    · intro h1 h2
      have hv : v.truthy = true := h1 v rfl
      have hw : w.truthy = true := h2 w rfl
      simp [savePickleMethod, hv, hw]

/-- Witness for `savePickle_frame` on a state with a truthy `traj_lib`
and an absent `traj`. -/
theorem savePickle_frame_witness :
    (∀ v, (some { oid := 1, truthy := true } : Option PyObj) = some v →
      v.truthy = true) ∧
    (∀ v, (none : Option PyObj) = some v → v.truthy = true) ∧
    ((savePickleMethod
        { traj_lib := some { oid := 1, truthy := true }, traj := none,
          rest := (0:ℕ) }).rest = 0 ∧
     savePickleMethod
        { traj_lib := some { oid := 1, truthy := true }, traj := none,
          rest := (0:ℕ) } =
       { traj_lib := some { oid := 1, truthy := true }, traj := none,
         rest := (0:ℕ) }) := by
  have hlib : ∀ v : PyObj,
      (some { oid := 1, truthy := true } : Option PyObj) = some v →
        v.truthy = true := by
    intro v h
    rw [Option.some.injEq] at h
    subst h
    rfl
  have htr : ∀ v : PyObj, (none : Option PyObj) = some v → v.truthy = true := by
    intro v h
    exact Option.noConfusion h
  refine ⟨hlib, htr, ?_, ?_⟩
  · exact (savePickle_frame
      { traj_lib := some { oid := 1, truthy := true }, traj := none,
        rest := (0:ℕ) }).1
  · exact (savePickle_frame
      { traj_lib := some { oid := 1, truthy := true }, traj := none,
        rest := (0:ℕ) }).2 hlib htr

/-- Counterexample for claim C1.  The fit does not use "a minimum of 4
points": for a station with 8 points the first 25% is 2 points, which is
fewer than 4, and the source then uses ALL 8 points, while the claim's
reading (at least 4, here exactly 4) uses the first 4; on the data below
the two intercepts are 50 and 0. -/
theorem fitLagIntercept_not_min_four :
    fitLagIntercept [0, 1, 2, 3, 4, 5, 6, 7] [0, 0, 0, 0, 100, 100, 100, 100] 0 ≠
      fitLagInterceptClaimed [0, 1, 2, 3, 4, 5, 6, 7]
        [0, 0, 0, 0, 100, 100, 100, 100] 0 ∧
    (fitLagIntercept [0, 1, 2, 3, 4, 5, 6, 7]
        [0, 0, 0, 0, 100, 100, 100, 100] 0).2 = 50 ∧
    (fitLagInterceptClaimed [0, 1, 2, 3, 4, 5, 6, 7]
        [0, 0, 0, 0, 100, 100, 100, 100] 0).2 = 0 := by
  norm_num [fitLagIntercept, fitLagInterceptClaimed, quartSize, claimQuartSize,
    residuals, Prod.ext_iff]

/-- Auxiliary: the sum of squared errors of the fixed-slope line is the
sum of squared deviations of the residuals from the intercept. -/
theorem sse_eq_map_residuals (time len : List ℚ) (v b : ℚ) :
    sse time len v b = ((residuals time len v).map (fun x => (x - b) ^ 2)).sum := by
  induction time generalizing len with
  | nil => simp [sse, residuals]
  | cons t ts ih =>
    cases len with
    | nil => simp [sse, residuals]
    | cons l ls =>
      have hts := ih ls
      simp only [sse, residuals, List.zipWith_cons_cons, List.map_cons,
        List.sum_cons] at hts ⊢
      rw [hts]
      ring_nf

/-- Auxiliary: expansion of a sum of squared deviations. -/
theorem sum_sq_sub (r : List ℚ) (b : ℚ) :
    (r.map (fun x => (x - b) ^ 2)).sum =
      (r.map (fun x => x ^ 2)).sum - 2 * b * r.sum + r.length * b ^ 2 := by
  induction r with
  | nil => simp
  | cons a l ih =>
    simp only [List.map_cons, List.sum_cons, List.length_cons, ih]
    push_cast
    ring

/-- Amended claim C1.  For every station, the lag line keeps the fitted
begin velocity as its slope, and its intercept is the exact least-squares
minimiser of the squared error over the points actually used: the first
25% of the station's (time, length) points, except that when that quarter
holds fewer than 4 points ALL of the station's points are used instead
(possibly fewer than 4, when the station itself has fewer than 4). -/
theorem fitLagIntercept_least_squares (time len : List ℚ) (v b : ℚ)
    (hne : time ≠ []) (hlen : time.length = len.length) :
    (fitLagIntercept time len v).1 = v ∧
    sse (time.take (quartSize time.length)) (len.take (quartSize time.length)) v
        (fitLagIntercept time len v).2 ≤
      sse (time.take (quartSize time.length)) (len.take (quartSize time.length)) v b := by
  refine ⟨rfl, ?_⟩
  set k := quartSize time.length with hk
  have hkle : k ≤ time.length := by
    rw [hk]
    unfold quartSize
    split
    · exact le_rfl
    · exact Nat.div_le_self _ _
  have hkpos : 0 < k := by
    have hpos : 0 < time.length := List.length_pos.mpr hne
    rw [hk]
    unfold quartSize
    split
    · exact hpos
    · omega
  have hT : (time.take k).length = k := by
    simp [hkle]
  have hL : (len.take k).length = k := by
    simp
    omega
  have hrlen : (residuals (time.take k) (len.take k) v).length = k := by
    simp [residuals, hT, hL]
  have hm : (fitLagIntercept time len v).2 =
      (residuals (time.take k) (len.take k) v).sum / (k : ℚ) := rfl
  rw [hm, sse_eq_map_residuals, sse_eq_map_residuals, sum_sq_sub, sum_sq_sub, hrlen]
  set S := (residuals (time.take k) (len.take k) v).sum with hS
  set q := ((residuals (time.take k) (len.take k) v).map (fun x => x ^ 2)).sum with hq
  have hn : (0:ℚ) < (k : ℚ) := by exact_mod_cast hkpos
  have hne0 : (k : ℚ) ≠ 0 := ne_of_gt hn
  have hvalL : q - 2 * (S / (k:ℚ)) * S + (k:ℚ) * (S / (k:ℚ)) ^ 2 = q - S ^ 2 / (k:ℚ) := by
    field_simp
    ring
  have hdiff : (q - 2 * b * S + (k:ℚ) * b ^ 2) - (q - S ^ 2 / (k:ℚ)) =
      ((k:ℚ) * b - S) ^ 2 / (k:ℚ) := by
    field_simp
    ring
  have hpos2 : 0 ≤ ((k:ℚ) * b - S) ^ 2 / (k:ℚ) := by positivity
  linarith [hvalL, hdiff, hpos2]

/-- Witness for `fitLagIntercept_least_squares` on a concrete four-point
station with the intercept compared against 5. -/
theorem fitLagIntercept_least_squares_witness :
    ([(0:ℚ), 1, 2, 3] ≠ ([] : List ℚ)) ∧
    ([(0:ℚ), 1, 2, 3].length = [(1:ℚ), 1, 1, 1].length) ∧
    ((fitLagIntercept [(0:ℚ), 1, 2, 3] [(1:ℚ), 1, 1, 1] 0).1 = 0 ∧
     sse ([(0:ℚ), 1, 2, 3].take (quartSize [(0:ℚ), 1, 2, 3].length))
         ([(1:ℚ), 1, 1, 1].take (quartSize [(0:ℚ), 1, 2, 3].length)) 0
         (fitLagIntercept [(0:ℚ), 1, 2, 3] [(1:ℚ), 1, 1, 1] 0).2 ≤
       sse ([(0:ℚ), 1, 2, 3].take (quartSize [(0:ℚ), 1, 2, 3].length))
         ([(1:ℚ), 1, 1, 1].take (quartSize [(0:ℚ), 1, 2, 3].length)) 0 5) :=
  ⟨by simp, by simp,
   fitLagIntercept_least_squares [(0:ℚ), 1, 2, 3] [(1:ℚ), 1, 1, 1] 0 5
     (by simp) (by simp)⟩

/-- Auxiliary: the strict comparison on extended variances never relates
a value to itself (in float terms, neither `x < x` nor `inf < inf`). -/
theorem ltVar_irrefl (x : Option ℚ) : ltVar x x = false := by
  cases x with
  | none => rfl
  | some a => simp [ltVar]

/-- Auxiliary: the strict comparison on extended variances is
transitive. -/
theorem ltVar_trans {x y z : Option ℚ} (h1 : ltVar x y = true)
    (h2 : ltVar y z = true) : ltVar x z = true := by
  cases x with
  | none => simp [ltVar] at h1
  | some a =>
    cases z with
    | none => simp [ltVar]
    | some c =>
      cases y with
      | none => simp [ltVar] at h2
      | some b =>
        simp only [ltVar, decide_eq_true_eq] at h1 h2 ⊢
        exact lt_trans h1 h2

/-- Auxiliary invariant of the best-candidate accumulator loop, proved by
induction with a general starting accumulator: the final accumulator is
the start or one of the visited candidates, it never compares above the
start, and no visited candidate compares strictly below it. -/
theorem bestLoop_foldl_inv {ι : Type} (c : ι → Option (ℚ × ℚ) × Option ℚ)
    (cands : List ι) (init : Option (ℚ × ℚ) × Option ℚ) :
    (List.foldl (fun best i => if ltVar (c i).2 best.2 then c i else best)
        init cands = init ∨
      ∃ i ∈ cands,
        List.foldl (fun best i => if ltVar (c i).2 best.2 then c i else best)
          init cands = c i) ∧
    (ltVar (List.foldl (fun best i => if ltVar (c i).2 best.2 then c i else best)
        init cands).2 init.2 = true ∨
      List.foldl (fun best i => if ltVar (c i).2 best.2 then c i else best)
        init cands = init) ∧
    ∀ i ∈ cands,
      ltVar (c i).2
        (List.foldl (fun best i => if ltVar (c i).2 best.2 then c i else best)
          init cands).2 = false := by
  induction cands generalizing init with
  | nil => exact ⟨Or.inl rfl, Or.inr rfl, by simp⟩
  | cons a l ih =>
    by_cases hb : ltVar (c a).2 init.2 = true
    · have hfold : List.foldl
          (fun best i => if ltVar (c i).2 best.2 then c i else best)
          init (a :: l) =
          List.foldl (fun best i => if ltVar (c i).2 best.2 then c i else best)
            (c a) l := by
        simp [List.foldl_cons, hb]
      obtain ⟨ihMem, ihLt, ihMin⟩ := ih (c a)
      rw [hfold]
      refine ⟨?_, ?_, ?_⟩
      · rcases ihMem with h | ⟨i, hi, h⟩
        · exact Or.inr ⟨a, by simp, h⟩
        · exact Or.inr ⟨i, by simp [hi], h⟩
      · rcases ihLt with h | h
        · exact Or.inl (ltVar_trans h hb)
        · rw [h]
          exact Or.inl hb
      · intro i hi
        rcases List.mem_cons.mp hi with rfl | hil
        · rcases ihLt with h | h
          · rw [Bool.eq_false_iff]
            intro hca
            have := ltVar_trans hca h
            rw [ltVar_irrefl] at this
            exact Bool.false_ne_true this
          · rw [h]
            exact ltVar_irrefl _
        · exact ihMin i hil
    · have hb' : ltVar (c a).2 init.2 = false := Bool.eq_false_iff.mpr hb
      have hfold : List.foldl
          (fun best i => if ltVar (c i).2 best.2 then c i else best)
          init (a :: l) =
          List.foldl (fun best i => if ltVar (c i).2 best.2 then c i else best)
            init l := by
        simp [List.foldl_cons, hb']
      obtain ⟨ihMem, ihLt, ihMin⟩ := ih init
      rw [hfold]
      refine ⟨?_, ihLt, ?_⟩
      · rcases ihMem with h | ⟨i, hi, h⟩
        · exact Or.inl h
        · exact Or.inr ⟨i, by simp [hi], h⟩
      · intro i hi
        rcases List.mem_cons.mp hi with rfl | hil
        · rcases ihLt with h | h
          · rw [Bool.eq_false_iff]
            intro hca
            exact hb (ltVar_trans hca h)
          · rw [h]
            exact hb'
        · exact ihMin i hil

/-- Auxiliary: membership in the popped index list — popping position `j`
from `range n` keeps exactly the indices below `n` other than `j` (and
when `j ≥ n` nothing is removed, but then no index below `n` equals `j`
anyway). -/
theorem mem_popAt_range (n j k : ℕ) : k ∈ popAt (List.range n) j ↔ (k < n ∧ k ≠ j) := by
  rw [popAt, ← List.eraseIdx_eq_take_drop_succ, List.mem_eraseIdx_iff_getElem?]
  constructor
  · rintro ⟨i, hij, hi⟩
    rw [List.getElem?_eq_some_iff] at hi
    obtain ⟨hilen, hik⟩ := hi
    have hin : i < n := by simpa using hilen
    rw [List.getElem_range] at hik
    subst hik
    exact ⟨hin, hij⟩
  · rintro ⟨hk, hkj⟩
    refine ⟨k, hkj, ?_⟩
    rw [List.getElem?_eq_some_iff]
    refine ⟨by simpa using hk, ?_⟩
    rw [List.getElem_range]

/-- Claim C6.  Structure and selection of the first-half-average mode:
with exactly 2 stations a single candidate is fitted, using both stations
and no exclusion (the loop breaks after its first iteration); with `n ≥ 3`
stations the loop visits the candidates `i = 1..n`, and candidate `i`
uses exactly the stations other than `i − 1` — each candidate excludes
exactly one station; every candidate pools its stations' (time,
state-vector-distance) pairs, sorts by time, and fits the earliest half
(this pipeline is the definition of `candidateFit`); and the selected
solution, whose slope divided by 1000 becomes the begin velocity, is one
of the visited candidates (or the `None` start if the loop is empty) and
no visited candidate has a strictly lower intercept-parameter variance. -/
theorem fha_first_half_selection (times svs : List (List ℚ)) (n : ℕ) :
    (n = 2 → (fhaIndices n).map (useIndices n) = [[0, 1]]) ∧
    (3 ≤ n →
      fhaIndices n = List.range' 1 n ∧
      ∀ i ∈ fhaIndices n, ∀ k, k ∈ useIndices n i ↔ (k < n ∧ k ≠ i - 1)) ∧
    (fhaSelect times svs n = (none, none) ∨
      ∃ i ∈ fhaIndices n,
        fhaSelect times svs n = candidateFit times svs (useIndices n i)) ∧
    ∀ i ∈ fhaIndices n,
      ltVar (candidateFit times svs (useIndices n i)).2
        (fhaSelect times svs n).2 = false := by
  have hinv := bestLoop_foldl_inv
    (fun i => candidateFit times svs (useIndices n i)) (fhaIndices n) (none, none)
  refine ⟨?_, ?_, ?_, ?_⟩
  · intro h
    subst h
    decide
  · intro hn
    have hn2 : n ≠ 2 := by omega
    have h2n : 2 < n := by omega
    constructor
    · simp [fhaIndices, hn2]
    · intro i _ k
      rw [useIndices, if_pos h2n]
      exact mem_popAt_range n (i - 1) k
  · exact hinv.1
  · exact hinv.2.2

/-- Witness for `fha_first_half_selection`, instantiating the two-station
case (with its break) and the three-station case (each candidate
excluding one station) on concrete data. -/
theorem fha_first_half_selection_witness :
    ((2:ℕ) = 2) ∧ (3 ≤ (3:ℕ)) ∧
    ((fhaIndices 2).map (useIndices 2) = [[0, 1]]) ∧
    (fhaIndices 3 = List.range' 1 3 ∧
      ∀ i ∈ fhaIndices 3, ∀ k, k ∈ useIndices 3 i ↔ (k < 3 ∧ k ≠ i - 1)) ∧
    (∀ i ∈ fhaIndices 2,
      ltVar (candidateFit [[(0:ℚ)], [1]] [[(0:ℚ)], [1]] (useIndices 2 i)).2
        (fhaSelect [[(0:ℚ)], [1]] [[(0:ℚ)], [1]] 2).2 = false) :=
  ⟨rfl, by norm_num,
   (fha_first_half_selection [[(0:ℚ)], [1]] [[(0:ℚ)], [1]] 2).1 rfl,
   (fha_first_half_selection [[(0:ℚ)], [1], [2]] [[(0:ℚ)], [1], [2]] 3).2.1
     (by norm_num),
   (fha_first_half_selection [[(0:ℚ)], [1]] [[(0:ℚ)], [1]] 2).2.2.2⟩

end WMPL
